import Mathlib

/-!
Shallow embedding of the pngme chunk layer (src/chunk_type.rs and
src/chunk.rs).  Rust `u8`/`u32` values are modelled as `Nat` with explicit
`% 2^w` truncation where the source truncates; byte buffers are `List Nat`;
fallible operations return `Except`; operations that can panic in Rust
return `Option (Except ..)`, with `none` standing for a panic.
-/

namespace Pngme

/-- Big-endian byte decomposition of a `u32` (`u32::to_be_bytes`).
For `n < 2^32` these are exactly the four big-endian bytes; larger inputs
are truncated modulo `2^32`, as storing into a `u32` would. -/
def toBe32 (n : Nat) : List Nat :=
  [n / 2 ^ 24 % 256, n / 2 ^ 16 % 256, n / 2 ^ 8 % 256, n % 256]

/-- `u32::from_be_bytes` on a 4-byte list.  The catch-all branch is
unreachable in every call site (the source's `try_into().unwrap()` on a
4-byte slice cannot fail). -/
def fromBe32 (l : List Nat) : Nat :=
  match l with
  | [a, b, c, d] => ((a * 256 + b) * 256 + c) * 256 + d
  | _ => 0

/-! ## chunk_type.rs -/

/-- `PNG_CHUNK_TYPE_LENGTH` -/
def PNG_CHUNK_TYPE_LENGTH : Nat := 4

/-- `PngChunkTypeParsingError` -/
inductive PngChunkTypeParsingError where
  | InvalidStringLength (expected got : Nat)
  | InvalidAsciiCharacters
deriving DecidableEq, Repr

/-- `PngChunkType` wraps `[char; 4]` (`PngChunkTypeData`). -/
structure PngChunkType where
  c0 : Char
  c1 : Char
  c2 : Char
  c3 : Char
deriving DecidableEq, Repr

/-- `char::from(u8)`: the Unicode scalar with the byte's value. -/
def charFromByte (b : Nat) : Char := Char.ofNat b

/-- `is_ascii_letter_byte` -/
def is_ascii_letter_byte (byte : Nat) : Bool :=
  decide ((65 ≤ byte ∧ byte ≤ 90) ∨ (97 ≤ byte ∧ byte ≤ 122))

/-- `PngChunkType::bytes`: each stored char cast back with `as u8`
(truncation of the scalar value to 8 bits). -/
def PngChunkType.bytes (t : PngChunkType) : List Nat :=
  [t.c0.toNat % 256, t.c1.toNat % 256, t.c2.toNat % 256, t.c3.toNat % 256]

/-- `PngChunkType::is_valid_chars` -/
def PngChunkType.is_valid_chars (t : PngChunkType) : Bool :=
  t.bytes.all is_ascii_letter_byte

/-- `TryFrom<PngChunkTypeBinaryData> for PngChunkType` on the four bytes
of the input array. -/
def pngChunkTypeTryFrom (b0 b1 b2 b3 : Nat) :
    Except PngChunkTypeParsingError PngChunkType :=
  let inst : PngChunkType :=
    ⟨charFromByte b0, charFromByte b1, charFromByte b2, charFromByte b3⟩
  if !inst.is_valid_chars then .error .InvalidAsciiCharacters
  else .ok inst

/-- Rust `str::len`: the UTF-8 byte length of the string (the string
itself is modelled as its list of Unicode scalars). -/
def strByteLength (s : List Char) : Nat := (s.map Char.utf8Size).sum

/-- `FromStr for PngChunkType`.  `none` models the panic of
`maybe_char.unwrap()` when the char iterator is exhausted before four
chars were taken (possible when the byte length is 4 but the string has
fewer than 4 chars).  `char as u8` truncates the scalar to 8 bits. -/
def pngChunkTypeFromStr (s : List Char) :
    Option (Except PngChunkTypeParsingError PngChunkType) :=
  if strByteLength s ≠ PNG_CHUNK_TYPE_LENGTH then
    some (.error (.InvalidStringLength PNG_CHUNK_TYPE_LENGTH (strByteLength s)))
  else
    match s with
    | a :: b :: c :: d :: _ =>
        some (pngChunkTypeTryFrom (a.toNat % 256) (b.toNat % 256)
          (c.toNat % 256) (d.toNat % 256))
    | _ => none

/-! ## chunk.rs -/

/-- `PNG_CHUNK_DATA_LENGTH_LENGTH` -/
def PNG_CHUNK_DATA_LENGTH_LENGTH : Nat := 4

/-- `CRC_LENGTH` -/
def CRC_LENGTH : Nat := 4

/-- `PNG_CHUNK_MINIMUM_LENGTH` -/
def PNG_CHUNK_MINIMUM_LENGTH : Nat :=
  PNG_CHUNK_DATA_LENGTH_LENGTH + PNG_CHUNK_TYPE_LENGTH + CRC_LENGTH

/-- `PngChunkParsingError` -/
inductive PngChunkParsingError where
  | InvalidMinimumLength (got : Nat)
  | InvalidDataLength (expected got : Nat)
  | InvalidCRC (expected got : Nat)
  | InvalidChunkType (e : PngChunkTypeParsingError)
deriving DecidableEq, Repr

/-- `PngChunk` -/
structure PngChunk where
  length : Nat
  chunk_type : PngChunkType
  data : List Nat
deriving DecidableEq, Repr

/-- The CRC-32 (IEEE) reflected polynomial, as used by the `crc32fast`
crate the source delegates its checksums to. -/
def CRC32_POLY : Nat := 0xEDB88320

/-- One bit step of CRC-32: shift right, conditionally xor the
polynomial when the dropped bit was set. -/
def crcBitStep (s : Nat) : Nat :=
  if s % 2 = 1 then s / 2 ^^^ CRC32_POLY else s / 2

/-- One byte step of CRC-32: xor the byte into the state, then run
eight bit steps. -/
def crcByteStep (s b : Nat) : Nat := crcBitStep^[8] (s ^^^ b)

/-- CRC-32/IEEE of a byte list: init `0xFFFFFFFF`, byte steps, final
complement.  This is the checksum `crc32fast::Hasher` computes. -/
def crc32 (bytes : List Nat) : Nat :=
  bytes.foldl crcByteStep 0xFFFFFFFF ^^^ 0xFFFFFFFF

/-- `PngChunk::crc`: CRC-32 over chunk-type bytes then data. -/
def PngChunk.crc (c : PngChunk) : Nat :=
  crc32 (c.chunk_type.bytes ++ c.data)

/-- `PngChunk::new`: length is `data.len() as u32`. -/
def PngChunk.new (chunk_type : PngChunkType) (data : List Nat) : PngChunk :=
  ⟨data.length % 2 ^ 32, chunk_type, data⟩

/-- `PngChunk::as_bytes`: big-endian length, type bytes, data, big-endian
freshly computed CRC. -/
def PngChunk.as_bytes (c : PngChunk) : List Nat :=
  toBe32 c.length ++ c.chunk_type.bytes ++ c.data ++ toBe32 c.crc

/-- `TryFrom<&[u8]> for PngChunk`.  `none` models the panic of the
`bytes[data_last_index..(data_last_index + 4)]` slice when the buffer is
shorter than `data_length + 12` (the preceding check only requires
`data_length + 8`); the panic point sits after the chunk-type parse, as
in the source.  The inner catch-all arm is unreachable: `bytes[4..8]`
always holds 4 bytes once the minimum-length check passed. -/
def pngChunkTryFrom (bytes : List Nat) :
    Option (Except PngChunkParsingError PngChunk) :=
  if bytes.length < PNG_CHUNK_MINIMUM_LENGTH then
    some (.error (.InvalidMinimumLength bytes.length))
  else
    let data_length := fromBe32 (bytes.take 4)
    if bytes.length < data_length + PNG_CHUNK_TYPE_LENGTH + CRC_LENGTH then
      some (.error (.InvalidDataLength data_length bytes.length))
    else
      match (bytes.drop 4).take 4 with
      | [t0, t1, t2, t3] =>
          match pngChunkTypeTryFrom t0 t1 t2 t3 with
          | .error e => some (.error (.InvalidChunkType e))
          | .ok chunk_type =>
              if bytes.length < data_length + 12 then none
              else
                let data := (bytes.drop 8).take data_length
                let crc := fromBe32 ((bytes.drop (8 + data_length)).take 4)
                let chunk : PngChunk := ⟨data_length, chunk_type, data⟩
                let calculated_crc := chunk.crc
                if crc ≠ calculated_crc then
                  some (.error (.InvalidCRC calculated_crc crc))
                else some (.ok chunk)
      | _ => none

/-- The chunk-type bytes `"RuSt".as_bytes()` used by the source's tests. -/
def rustTypeBytes : List Nat := [82, 117, 83, 116]

/-- The message bytes
`"This is where your secret message will be!".as_bytes()` used by the
source's tests (42 ASCII bytes). -/
def secretMessageBytes : List Nat :=
  [84, 104, 105, 115, 32, 105, 115, 32, 119, 104, 101, 114, 101, 32, 121, 111,
   117, 114, 32, 115, 101, 99, 114, 101, 116, 32, 109, 101, 115, 115, 97, 103,
   101, 32, 119, 105, 108, 108, 32, 98, 101, 33]

/-- The wire buffer the source's `testing_chunk` helper parses: length 42,
type "RuSt", the 42 message bytes, stored checksum 2882656334. -/
def testingChunkBuffer : List Nat :=
  toBe32 42 ++ rustTypeBytes ++ secretMessageBytes ++ toBe32 2882656334

/-- Flip bit `j` of the byte at index `p` of a byte list (statement
vocabulary for the checksum-sensitivity property). -/
def flipBit (l : List Nat) (p j : Nat) : List Nat :=
  l.take p ++ (l.getD p 0 ^^^ 2 ^ j) :: l.drop (p + 1)

/-! ## Helper lemmas -/

theorem toBe32_length (n : Nat) : (toBe32 n).length = 4 := rfl

theorem fromBe32_toBe32 (n : Nat) : fromBe32 (toBe32 n) = n % 2 ^ 32 := by
  simp only [toBe32, fromBe32]
  omega

theorem toBe32_mem_lt (n : Nat) : ∀ x ∈ toBe32 n, x < 256 := by
  intro x hx
  simp only [toBe32, List.mem_cons, List.not_mem_nil, or_false] at hx
  rcases hx with h | h | h | h <;> subst h <;> omega

theorem charFromByte_toNat (b : Nat) (hb : b < 256) :
    (charFromByte b).toNat = b := by
  have hv : Nat.isValidChar b := Or.inl (by omega)
  simp only [charFromByte, Char.ofNat, hv, reduceDIte]
  unfold Char.ofNatAux Char.toNat
  simp [UInt32.toNat, UInt32.ofNatCore]

theorem natXorLeftComm (a b c : Nat) : a ^^^ (b ^^^ c) = b ^^^ (a ^^^ c) := by
  rw [← Nat.xor_assoc, Nat.xor_comm a b, Nat.xor_assoc]

theorem crcBitStep_xor (a b : Nat) :
    crcBitStep (a ^^^ b) = crcBitStep a ^^^ crcBitStep b := by
  have hdiv : (a ^^^ b) / 2 = a / 2 ^^^ b / 2 := Nat.xor_div_two
  have hmod : (a ^^^ b) % 2 = (a + b) % 2 := Nat.xor_mod_two_eq
  unfold crcBitStep
  rcases Nat.mod_two_eq_zero_or_one a with ha | ha <;>
    rcases Nat.mod_two_eq_zero_or_one b with hb | hb
  · have h : (a ^^^ b) % 2 = 0 := by rw [hmod]; omega
    simp [h, ha, hb, hdiv]
  · have h : (a ^^^ b) % 2 = 1 := by rw [hmod]; omega
    simp [h, ha, hb, hdiv, Nat.xor_assoc]
  · have h : (a ^^^ b) % 2 = 1 := by rw [hmod]; omega
    simp [h, ha, hb, hdiv, Nat.xor_assoc, Nat.xor_comm, natXorLeftComm, Nat.xor_cancel_left, Nat.xor_self, Nat.xor_zero, Nat.zero_xor]
  · have h : (a ^^^ b) % 2 = 0 := by rw [hmod]; omega
    simp [h, ha, hb, hdiv, Nat.xor_assoc, Nat.xor_comm, natXorLeftComm, Nat.xor_cancel_left, Nat.xor_self, Nat.xor_zero, Nat.zero_xor]

theorem crcBitStep_iterate_xor (n a b : Nat) :
    crcBitStep^[n] (a ^^^ b) = crcBitStep^[n] a ^^^ crcBitStep^[n] b := by
  induction n generalizing a b with
  | zero => simp
  | succ n ih => simp [Function.iterate_succ_apply, crcBitStep_xor, ih]

theorem crcByteStep_xor_state (s e b : Nat) :
    crcByteStep (s ^^^ e) b = crcByteStep s b ^^^ crcBitStep^[8] e := by
  unfold crcByteStep
  rw [Nat.xor_assoc, Nat.xor_comm e b, ← Nat.xor_assoc, crcBitStep_iterate_xor]

theorem crcByteStep_xor_byte (s x e : Nat) :
    crcByteStep s (x ^^^ e) = crcByteStep s x ^^^ crcBitStep^[8] e := by
  unfold crcByteStep
  rw [← Nat.xor_assoc, crcBitStep_iterate_xor]

theorem foldl_crcByteStep_xor (l : List Nat) (s e : Nat) :
    l.foldl crcByteStep (s ^^^ e) =
      l.foldl crcByteStep s ^^^ crcBitStep^[8 * l.length] e := by
  induction l generalizing s e with
  | nil => simp
  | cons b l ih =>
      simp only [List.foldl_cons, List.length_cons]
      rw [crcByteStep_xor_state, ih, ← Function.iterate_add_apply]
      have h8 : 8 * l.length + 8 = 8 * (l.length + 1) := by ring
      rw [h8]

theorem crcBitStep_lt (s : Nat) (hs : s < 2 ^ 32) : crcBitStep s < 2 ^ 32 := by
  unfold crcBitStep
  split
  · exact Nat.xor_lt_two_pow (by omega) (by norm_num [CRC32_POLY])
  · omega

theorem crcBitStep_ne_zero (s : Nat) (hs : s < 2 ^ 32) (h0 : s ≠ 0) :
    crcBitStep s ≠ 0 := by
  unfold crcBitStep
  split
  · intro h
    have h2 := Nat.xor_eq_zero.mp h
    have hp : CRC32_POLY = 3988292384 := rfl
    rw [hp] at h2
    omega
  · rename_i hodd
    intro h
    omega

theorem crcBitStep_iterate_ne_zero (n e : Nat) (he : e < 2 ^ 32) (h0 : e ≠ 0) :
    crcBitStep^[n] e ≠ 0 ∧ crcBitStep^[n] e < 2 ^ 32 := by
  induction n generalizing e with
  | zero => exact ⟨h0, he⟩
  | succ n ih =>
      rw [Function.iterate_succ_apply]
      exact ih _ (crcBitStep_lt e he) (crcBitStep_ne_zero e he h0)

/-- Flipping a single bit of one byte of the input changes the CRC-32. -/
theorem crc32_flip_ne (pre suf : List Nat) (x j : Nat) (hj : j < 8) :
    crc32 (pre ++ (x ^^^ 2 ^ j) :: suf) ≠ crc32 (pre ++ x :: suf) := by
  unfold crc32
  intro h
  have hbody := Nat.xor_left_inj.mp h
  rw [List.foldl_append, List.foldl_append] at hbody
  simp only [List.foldl_cons] at hbody
  rw [crcByteStep_xor_byte, foldl_crcByteStep_xor, ← Function.iterate_add_apply]
    at hbody
  have hzero : crcBitStep^[8 * suf.length + 8] (2 ^ j) = 0 := by
    have := Nat.xor_right_inj.mp (hbody.trans (Nat.xor_zero _).symm)
    exact this
  have hne := crcBitStep_iterate_ne_zero (8 * suf.length + 8) (2 ^ j)
    (lt_trans (Nat.pow_lt_pow_right (by norm_num) hj) (by norm_num))
    (Nat.pos_iff_ne_zero.mp (Nat.two_pow_pos j))
  exact hne.1 hzero

theorem pngChunkType_mk_bytes (b0 b1 b2 b3 : Nat)
    (h0 : b0 < 256) (h1 : b1 < 256) (h2 : b2 < 256) (h3 : b3 < 256) :
    (PngChunkType.mk (charFromByte b0) (charFromByte b1) (charFromByte b2)
      (charFromByte b3)).bytes = [b0, b1, b2, b3] := by
  simp only [PngChunkType.bytes, charFromByte_toNat _ h0, charFromByte_toNat _ h1,
    charFromByte_toNat _ h2, charFromByte_toNat _ h3, Nat.mod_eq_of_lt h0,
    Nat.mod_eq_of_lt h1, Nat.mod_eq_of_lt h2, Nat.mod_eq_of_lt h3]

theorem pngChunkTypeTryFrom_ok (b0 b1 b2 b3 : Nat)
    (h0 : b0 < 256) (h1 : b1 < 256) (h2 : b2 < 256) (h3 : b3 < 256)
    (hall : [b0, b1, b2, b3].all is_ascii_letter_byte = true) :
    pngChunkTypeTryFrom b0 b1 b2 b3 =
      .ok ⟨charFromByte b0, charFromByte b1, charFromByte b2, charFromByte b3⟩ := by
  unfold pngChunkTypeTryFrom
  simp only [PngChunkType.is_valid_chars,
    pngChunkType_mk_bytes b0 b1 b2 b3 h0 h1 h2 h3, hall, Bool.not_true,
    Bool.false_eq_true, if_false]

theorem pngChunkTypeTryFrom_err (b0 b1 b2 b3 : Nat)
    (h0 : b0 < 256) (h1 : b1 < 256) (h2 : b2 < 256) (h3 : b3 < 256)
    (hall : [b0, b1, b2, b3].all is_ascii_letter_byte = false) :
    pngChunkTypeTryFrom b0 b1 b2 b3 = .error .InvalidAsciiCharacters := by
  unfold pngChunkTypeTryFrom
  simp only [PngChunkType.is_valid_chars,
    pngChunkType_mk_bytes b0 b1 b2 b3 h0 h1 h2 h3, hall, Bool.not_false, if_true]

/-- Parsing a well-formed wire buffer (length field matching the data,
whole buffer present) reduces to the chunk-type check followed by the
checksum comparison against the stored word modulo `2^32`. -/
theorem pngChunkTryFrom_wire (L t0 t1 t2 t3 : Nat) (d : List Nat) (w : Nat)
    (hL : L < 2 ^ 32) (hd : d.length = L) :
    pngChunkTryFrom (toBe32 L ++ [t0, t1, t2, t3] ++ d ++ toBe32 w) =
      match pngChunkTypeTryFrom t0 t1 t2 t3 with
      | .error e => some (.error (.InvalidChunkType e))
      | .ok ct =>
          if w % 2 ^ 32 ≠ crc32 (ct.bytes ++ d) then
            some (.error (.InvalidCRC (crc32 (ct.bytes ++ d)) (w % 2 ^ 32)))
          else some (.ok ⟨L, ct, d⟩) := by
  have hassoc : toBe32 L ++ [t0, t1, t2, t3] ++ d ++ toBe32 w =
      toBe32 L ++ ([t0, t1, t2, t3] ++ (d ++ toBe32 w)) := by
    simp [List.append_assoc]
  rw [hassoc]
  have hlen : (toBe32 L ++ ([t0, t1, t2, t3] ++ (d ++ toBe32 w))).length =
      L + 12 := by
    simp [toBe32, hd]
  have htake4 := List.take_left (toBe32 L) ([t0, t1, t2, t3] ++ (d ++ toBe32 w))
  rw [toBe32_length] at htake4
  have hdrop4 := List.drop_left (toBe32 L) ([t0, t1, t2, t3] ++ (d ++ toBe32 w))
  rw [toBe32_length] at hdrop4
  have hdrop8 : (toBe32 L ++ ([t0, t1, t2, t3] ++ (d ++ toBe32 w))).drop 8 =
      d ++ toBe32 w := by
    rw [show (8 : Nat) = 4 + 4 from rfl, ← List.drop_drop, hdrop4]
    exact List.drop_left [t0, t1, t2, t3] (d ++ toBe32 w)
  have htype :
      ((toBe32 L ++ ([t0, t1, t2, t3] ++ (d ++ toBe32 w))).drop 4).take 4 =
        [t0, t1, t2, t3] := by
    rw [hdrop4]
    exact List.take_left [t0, t1, t2, t3] (d ++ toBe32 w)
  have hdata :
      ((toBe32 L ++ ([t0, t1, t2, t3] ++ (d ++ toBe32 w))).drop 8).take L =
        d := by
    rw [hdrop8, ← hd]
    exact List.take_left d (toBe32 w)
  have hcrcslice :
      ((toBe32 L ++ ([t0, t1, t2, t3] ++ (d ++ toBe32 w))).drop (8 + L)).take 4 =
        toBe32 w := by
    rw [← List.drop_drop, hdrop8, ← hd, List.drop_left, ← toBe32_length w]
    exact List.take_length (toBe32 w)
  unfold pngChunkTryFrom
  simp only [PNG_CHUNK_MINIMUM_LENGTH, PNG_CHUNK_DATA_LENGTH_LENGTH,
    PNG_CHUNK_TYPE_LENGTH, CRC_LENGTH]
  rw [hlen, htake4, fromBe32_toBe32, Nat.mod_eq_of_lt hL]
  rw [if_neg (by omega : ¬ L + 12 < 4 + 4 + 4)]
  rw [if_neg (by omega : ¬ L + 12 < L + 4 + 4)]
  rw [htype]
  simp only [hdata, hcrcslice, fromBe32_toBe32]
  cases hct : pngChunkTypeTryFrom t0 t1 t2 t3 with
  | error e => simp [hct]
  | ok ct => simp [hct, PngChunk.crc]

theorem crcBitStep_iterate_lt (n s : Nat) (hs : s < 2 ^ 32) :
    crcBitStep^[n] s < 2 ^ 32 := by
  induction n generalizing s with
  | zero => exact hs
  | succ n ih =>
      rw [Function.iterate_succ_apply]
      exact ih _ (crcBitStep_lt s hs)

theorem foldl_crcByteStep_lt (l : List Nat) (s : Nat) (hs : s < 2 ^ 32)
    (hl : ∀ x ∈ l, x < 2 ^ 32) : l.foldl crcByteStep s < 2 ^ 32 := by
  induction l generalizing s with
  | nil => exact hs
  | cons b l ih =>
      rw [List.foldl_cons]
      refine ih _ ?_ (fun x hx => hl x (List.mem_cons_of_mem b hx))
      exact crcBitStep_iterate_lt 8 _
        (Nat.xor_lt_two_pow hs (hl b (List.mem_cons_self b l)))

theorem crc32_lt (l : List Nat) (hl : ∀ x ∈ l, x < 2 ^ 32) :
    crc32 l < 2 ^ 32 := by
  unfold crc32
  exact Nat.xor_lt_two_pow (foldl_crcByteStep_lt l _ (by norm_num) hl)
    (by norm_num)

theorem pngChunkType_bytes_lt (t : PngChunkType) :
    ∀ x ∈ t.bytes, x < 256 := by
  intro x hx
  simp only [PngChunkType.bytes, List.mem_cons, List.not_mem_nil, or_false]
    at hx
  rcases hx with h | h | h | h <;> subst h <;>
    exact Nat.mod_lt _ (by norm_num)

theorem pngChunkTypeTryFrom_ne_stringLength (b0 b1 b2 b3 e g : Nat) :
    pngChunkTypeTryFrom b0 b1 b2 b3 ≠ .error (.InvalidStringLength e g) := by
  simp only [pngChunkTypeTryFrom]
  split <;> simp

theorem flipBit_append (A : List Nat) (x : Nat) (B : List Nat) (j : Nat) :
    flipBit (A ++ x :: B) A.length j = A ++ (x ^^^ 2 ^ j) :: B := by
  induction A with
  | nil => simp [flipBit]
  | cons a A ih =>
      simp only [flipBit] at ih
      simp only [List.cons_append, List.length_cons, flipBit,
        List.take_succ_cons, List.getD_cons_succ, List.drop_succ_cons]
      rw [ih]

theorem drop_eq_getD_cons (l : List Nat) (m : Nat) (h : m < l.length) :
    l.drop m = l.getD m 0 :: l.drop (m + 1) := by
  induction l generalizing m with
  | nil => simp at h
  | cons a l ih =>
      cases m with
      | zero => simp
      | succ m =>
          simp only [List.drop_succ_cons, List.getD_cons_succ]
          exact ih m (by simpa using h)

theorem list_eq_four (l : List Nat) (h : l.length = 4) :
    ∃ a b c d, l = [a, b, c, d] := by
  cases l with
  | nil => simp at h
  | cons a l =>
    cases l with
    | nil => simp at h
    | cons b l =>
      cases l with
      | nil => simp at h
      | cons c l =>
        cases l with
        | nil => simp at h
        | cons d l =>
          cases l with
          | nil => exact ⟨a, b, c, d, rfl⟩
          | cons e l => simp at h

theorem getD_mem_of_lt (l : List Nat) (k : Nat) (h : k < l.length) :
    l.getD k 0 ∈ l := by
  rw [List.getD_eq_getElem l 0 h]
  exact l.getElem_mem h

/-! ## Claim theorems -/

set_option maxRecDepth 100000 in
/-- Claim C4: parsing the test buffer (declared length 42, type "RuSt",
the 42-byte secret message, trailing big-endian checksum 2882656334)
slices exactly 42 data bytes — the whole message — and succeeds, the
trailing checksum being exactly the CRC-32/IEEE of the type bytes
concatenated with those 42 bytes, which equals 2882656334; with the
checksum word 2882656333 instead, the parse fails on the checksum
comparison. -/
theorem spec_c4_trusts_length :
    pngChunkTryFrom testingChunkBuffer =
      some (.ok ⟨42, ⟨'R', 'u', 'S', 't'⟩, secretMessageBytes⟩) ∧
    secretMessageBytes.length = 42 ∧
    crc32 (rustTypeBytes ++ secretMessageBytes) = 2882656334 ∧
    pngChunkTryFrom
        (toBe32 42 ++ rustTypeBytes ++ secretMessageBytes ++ toBe32 2882656333) =
      some (.error (.InvalidCRC 2882656334 2882656333)) := by
  refine ⟨by rfl, by rfl, by decide, by rfl⟩


/-- Claim C9 (code bug): `PngChunk::try_from` is not total.  On the
12-byte buffer with declared length 1 the minimum-length and data-length
checks both pass (12 ≥ 12 and 12 ≥ 1 + 8) but reading the checksum at
offsets 9..13 is out of bounds, so the source panics (modelled as
`none`). -/
theorem spec_c9_panic :
    pngChunkTryFrom [0, 0, 0, 1, 82, 117, 83, 116, 0, 0, 0, 0] = none ∧
    ([0, 0, 0, 1, 82, 117, 83, 116, 0, 0, 0, 0] : List Nat).length = 12 ∧
    fromBe32 ([0, 0, 0, 1, 82, 117, 83, 116, 0, 0, 0, 0].take 4) = 1 := by
  refine ⟨by rfl, by rfl, by rfl⟩

/-- Claim C10 (code bug): `PngChunkType::from_str` is not total.  On the
two-character string "éé" (UTF-8 byte length 4) the length check passes
but the char iterator is exhausted after two chars, so unwrapping the
third `chars.next()` panics (modelled as `none`). -/
theorem spec_c10_panic :
    pngChunkTypeFromStr ['é', 'é'] = none ∧
    strByteLength ['é', 'é'] = 4 ∧
    (['é', 'é'] : List Char).length = 2 := by
  refine ⟨by rfl, by rfl, by rfl⟩

/-- Claim C5, counterexample: the string "aaaé" has exactly 4 Unicode
characters, yet `from_str` fails with `InvalidStringLength`, and the
reported `got` field is 5 — the UTF-8 byte count, not the character
count.  This refutes both the "exactly when not 4 characters" condition
and the "N is the Unicode scalar count" reading. -/
theorem spec_c5_counterexample :
    pngChunkTypeFromStr ['a', 'a', 'a', 'é'] =
      some (.error (.InvalidStringLength 4 5)) ∧
    (['a', 'a', 'a', 'é'] : List Char).length = 4 := by
  refine ⟨by rfl, by rfl⟩

/-- Claim C5 as amended: `from_str` fails with
`InvalidStringLength{expected: 4, got: N}` exactly when the UTF-8 byte
length of the input differs from 4, where N is that byte length; when
the byte length is 4 and the string has 4 characters it delegates to the
raw-bytes constructor on the four chars narrowed to single bytes,
propagating its `InvalidAsciiCharacters` error. -/
theorem spec_c5_amended (s : List Char) :
    (strByteLength s ≠ 4 →
      pngChunkTypeFromStr s =
        some (.error (.InvalidStringLength 4 (strByteLength s)))) ∧
    (strByteLength s = 4 → ∀ e g,
      pngChunkTypeFromStr s ≠ some (.error (.InvalidStringLength e g))) ∧
    (∀ a b c d, s = [a, b, c, d] → strByteLength s = 4 →
      pngChunkTypeFromStr s =
        some (pngChunkTypeTryFrom (a.toNat % 256) (b.toNat % 256)
          (c.toNat % 256) (d.toNat % 256))) := by
  refine ⟨?_, ?_, ?_⟩
  · intro h
    simp only [pngChunkTypeFromStr, PNG_CHUNK_TYPE_LENGTH, if_pos h]
  · intro h e g
    simp only [pngChunkTypeFromStr, PNG_CHUNK_TYPE_LENGTH, h, ne_eq]
    rw [if_neg (by simp)]
    split
    · intro hcon
      exact pngChunkTypeTryFrom_ne_stringLength _ _ _ _ e g
        (Option.some.inj hcon)
    · simp
  · intro a b c d hs h
    subst hs
    simp only [pngChunkTypeFromStr, PNG_CHUNK_TYPE_LENGTH, h, ne_eq]
    rw [if_neg (by simp)]

/-- Claim C6: `as_bytes` returns exactly `length + 12` bytes, laid out
as big-endian length, the 4 chunk-type bytes, the data bytes, and the
big-endian CRC-32 computed at serialization time over type bytes ++ data
bytes; replacing the data field always re-derives the serialized
checksum from the new data. -/
theorem spec_c6_as_bytes_layout (c : PngChunk) (hinv : c.length = c.data.length) :
    c.as_bytes.length = c.length + 12 ∧
    c.as_bytes =
      toBe32 c.length ++ c.chunk_type.bytes ++ c.data ++
        toBe32 (crc32 (c.chunk_type.bytes ++ c.data)) ∧
    (∀ d : List Nat,
      (PngChunk.mk c.length c.chunk_type d).as_bytes =
        toBe32 c.length ++ c.chunk_type.bytes ++ d ++
          toBe32 (crc32 (c.chunk_type.bytes ++ d))) := by
  refine ⟨?_, rfl, fun d => rfl⟩
  simp [PngChunk.as_bytes, toBe32, PngChunkType.bytes, hinv]

/-- Claim C7: the raw-bytes chunk-type constructor succeeds exactly when
every byte is in the ASCII ranges 65–90 or 97–122, failing with
`InvalidAsciiCharacters` otherwise; on success `bytes()` returns the
input bytes unchanged. -/
theorem spec_c7_type_from_bytes (b0 b1 b2 b3 : Nat)
    (h0 : b0 < 256) (h1 : b1 < 256) (h2 : b2 < 256) (h3 : b3 < 256) :
    ((∀ x ∈ [b0, b1, b2, b3], (65 ≤ x ∧ x ≤ 90) ∨ (97 ≤ x ∧ x ≤ 122)) →
      ∃ t, pngChunkTypeTryFrom b0 b1 b2 b3 = .ok t ∧
        t.bytes = [b0, b1, b2, b3]) ∧
    ((¬ ∀ x ∈ [b0, b1, b2, b3], (65 ≤ x ∧ x ≤ 90) ∨ (97 ≤ x ∧ x ≤ 122)) →
      pngChunkTypeTryFrom b0 b1 b2 b3 = .error .InvalidAsciiCharacters) := by
  have hb : [b0, b1, b2, b3].all is_ascii_letter_byte = true ↔
      (∀ x ∈ [b0, b1, b2, b3], (65 ≤ x ∧ x ≤ 90) ∨ (97 ≤ x ∧ x ≤ 122)) := by
    simp [List.all_eq_true, is_ascii_letter_byte]
  constructor
  · intro hall
    exact ⟨_, pngChunkTypeTryFrom_ok b0 b1 b2 b3 h0 h1 h2 h3 (hb.mpr hall),
      pngChunkType_mk_bytes b0 b1 b2 b3 h0 h1 h2 h3⟩
  · intro hnall
    exact pngChunkTypeTryFrom_err b0 b1 b2 b3 h0 h1 h2 h3
      (eq_false_of_ne_true (fun h => hnall (hb.mp h)))

/-- Claim C2: parsing fails with `InvalidMinimumLength(actual)` exactly
when the input has fewer than 12 bytes (this check runs first, and for
12 bytes or more that error can never be produced), and for buffers of
at least 12 bytes whose first four bytes decode big-endian to L, it
fails with `InvalidDataLength{expected: L, got: actual}` exactly when
the buffer has fewer than L + 8 bytes. -/
theorem spec_c2_length_checks (bytes : List Nat) :
    (bytes.length < 12 →
      pngChunkTryFrom bytes =
        some (.error (.InvalidMinimumLength bytes.length))) ∧
    (12 ≤ bytes.length → ∀ g,
      pngChunkTryFrom bytes ≠ some (.error (.InvalidMinimumLength g))) ∧
    (12 ≤ bytes.length →
      (pngChunkTryFrom bytes =
          some (.error (.InvalidDataLength (fromBe32 (bytes.take 4))
            bytes.length)) ↔
        bytes.length < fromBe32 (bytes.take 4) + 8)) := by
  refine ⟨?_, ?_, ?_⟩
  · intro h
    unfold pngChunkTryFrom
    rw [if_pos (by
      simp only [PNG_CHUNK_MINIMUM_LENGTH, PNG_CHUNK_DATA_LENGTH_LENGTH,
        PNG_CHUNK_TYPE_LENGTH, CRC_LENGTH]
      omega)]
  · intro h12 g heq
    unfold pngChunkTryFrom at heq
    simp only [PNG_CHUNK_MINIMUM_LENGTH, PNG_CHUNK_DATA_LENGTH_LENGTH,
      PNG_CHUNK_TYPE_LENGTH, CRC_LENGTH] at heq
    rw [if_neg (by omega)] at heq
    split at heq
    · simp at heq
    · split at heq
      · split at heq
        · simp at heq
        · split at heq
          · simp at heq
          · split at heq <;> simp at heq
      · simp at heq
  · intro h12
    unfold pngChunkTryFrom
    simp only [PNG_CHUNK_MINIMUM_LENGTH, PNG_CHUNK_DATA_LENGTH_LENGTH,
      PNG_CHUNK_TYPE_LENGTH, CRC_LENGTH]
    rw [if_neg (by omega)]
    constructor
    · intro heq
      by_contra hge
      rw [if_neg (by omega)] at heq
      split at heq
      · split at heq
        · simp at heq
        · split at heq
          · simp at heq
          · split at heq <;> simp at heq
      · simp at heq
    · intro hlt
      rw [if_pos (by omega)]

/-- Claim C3: once the minimum-length and data-length checks have passed
and the chunk type at bytes 4..8 parsed, the parse fails exactly when
the CRC-32 freshly computed over the type bytes concatenated with the
sliced data differs from the big-endian word read right after the data,
with error `InvalidCRC{expected: computed, got: wire}`; otherwise it
succeeds with the sliced chunk. -/
theorem spec_c3_crc_check (bytes : List Nat) (t0 t1 t2 t3 : Nat)
    (ct : PngChunkType)
    (h12 : 12 ≤ bytes.length)
    (hfull : fromBe32 (bytes.take 4) + 12 ≤ bytes.length)
    (htb : (bytes.drop 4).take 4 = [t0, t1, t2, t3])
    (hct : pngChunkTypeTryFrom t0 t1 t2 t3 = .ok ct) :
    (fromBe32 ((bytes.drop (8 + fromBe32 (bytes.take 4))).take 4) ≠
        crc32 (ct.bytes ++ (bytes.drop 8).take (fromBe32 (bytes.take 4))) →
      pngChunkTryFrom bytes =
        some (.error (.InvalidCRC
          (crc32 (ct.bytes ++ (bytes.drop 8).take (fromBe32 (bytes.take 4))))
          (fromBe32 ((bytes.drop (8 + fromBe32 (bytes.take 4))).take 4))))) ∧
    (fromBe32 ((bytes.drop (8 + fromBe32 (bytes.take 4))).take 4) =
        crc32 (ct.bytes ++ (bytes.drop 8).take (fromBe32 (bytes.take 4))) →
      pngChunkTryFrom bytes =
        some (.ok ⟨fromBe32 (bytes.take 4), ct,
          (bytes.drop 8).take (fromBe32 (bytes.take 4))⟩)) := by
  unfold pngChunkTryFrom
  simp only [PNG_CHUNK_MINIMUM_LENGTH, PNG_CHUNK_DATA_LENGTH_LENGTH,
    PNG_CHUNK_TYPE_LENGTH, CRC_LENGTH]
  rw [if_neg (by omega), if_neg (by omega), htb]
  simp only [hct, PngChunk.crc]
  rw [if_neg (by omega)]
  constructor
  · intro hne
    rw [if_pos hne]
  · intro heq
    rw [if_neg (by simpa using heq)]

/-- Claim C1: for a chunk type built from 4 ASCII-letter bytes and data
shorter than 2^32 bytes, parsing the serialization of
`PngChunk::new(t, d)` succeeds and returns the same chunk (same type,
same data, length `d.len()`), and the serialized checksum word is the
recomputed checksum of the chunk. -/
theorem spec_c1_roundtrip (b0 b1 b2 b3 : Nat) (t : PngChunkType)
    (d : List Nat)
    (hall : [b0, b1, b2, b3].all is_ascii_letter_byte = true)
    (ht : pngChunkTypeTryFrom b0 b1 b2 b3 = .ok t)
    (hlen : d.length < 2 ^ 32)
    (hdb : ∀ x ∈ d, x < 256) :
    pngChunkTryFrom (PngChunk.new t d).as_bytes =
      some (.ok (PngChunk.new t d)) ∧
    (PngChunk.new t d).length = d.length ∧
    fromBe32 (((PngChunk.new t d).as_bytes.drop (8 + d.length)).take 4) =
      (PngChunk.new t d).crc := by
  have hbnd : b0 < 256 ∧ b1 < 256 ∧ b2 < 256 ∧ b3 < 256 := by
    have hall2 := hall
    simp only [List.all_cons, List.all_nil, Bool.and_true, Bool.and_eq_true,
      is_ascii_letter_byte, decide_eq_true_eq] at hall2
    omega
  obtain ⟨h0, h1, h2, h3⟩ := hbnd
  have ht' := pngChunkTypeTryFrom_ok b0 b1 b2 b3 h0 h1 h2 h3 hall
  rw [ht] at ht'
  have htEq : t = ⟨charFromByte b0, charFromByte b1, charFromByte b2,
      charFromByte b3⟩ := Except.ok.inj ht'
  have hbytes : t.bytes = [b0, b1, b2, b3] := by
    rw [htEq]
    exact pngChunkType_mk_bytes b0 b1 b2 b3 h0 h1 h2 h3
  have hmod : d.length % 2 ^ 32 = d.length := Nat.mod_eq_of_lt hlen
  have hnew : PngChunk.new t d = ⟨d.length, t, d⟩ := by
    unfold PngChunk.new
    rw [hmod]
  have hw : crc32 (t.bytes ++ d) < 2 ^ 32 := by
    apply crc32_lt
    intro x hx
    rcases List.mem_append.mp hx with hx | hx
    · exact lt_trans (pngChunkType_bytes_lt t x hx) (by norm_num)
    · exact lt_trans (hdb x hx) (by norm_num)
  have hcrcval : (PngChunk.mk d.length t d).crc = crc32 (t.bytes ++ d) := rfl
  have hab : (PngChunk.new t d).as_bytes =
      toBe32 d.length ++ [b0, b1, b2, b3] ++ d ++
        toBe32 (crc32 (t.bytes ++ d)) := by
    rw [hnew]
    show toBe32 d.length ++ t.bytes ++ d ++ toBe32 (PngChunk.mk d.length t d).crc
      = _
    rw [hcrcval, hbytes]
  refine ⟨?_, by rw [hnew], ?_⟩
  · rw [hab, pngChunkTryFrom_wire d.length b0 b1 b2 b3 d _ hlen rfl]
    simp only [ht]
    rw [Nat.mod_eq_of_lt hw, if_neg (by simp), hnew]
  · rw [hab]
    have hAlen : (toBe32 d.length ++ [b0, b1, b2, b3] ++ d).length =
        8 + d.length := by
      simp [toBe32]
      omega
    have hdrop := List.drop_left (toBe32 d.length ++ [b0, b1, b2, b3] ++ d)
      (toBe32 (crc32 (t.bytes ++ d)))
    rw [hAlen] at hdrop
    rw [hdrop]
    have htk : (toBe32 (crc32 (t.bytes ++ d))).take 4 =
        toBe32 (crc32 (t.bytes ++ d)) := by
      rw [← toBe32_length (crc32 (t.bytes ++ d))]
      exact List.take_length _
    rw [htk, fromBe32_toBe32, Nat.mod_eq_of_lt hw, hnew, hcrcval]

/-- Claim C8, counterexample: the claim says a single-bit flip in the
type or data bytes makes parsing fail because checksum verification
fails; but flipping bit 6 of the first type byte of the serialization of
`new("AAAA", [])` turns 'A' (65) into the non-letter byte 1, and parsing
fails earlier, at chunk-type validation, never reaching the checksum
comparison. -/
theorem spec_c8_counterexample :
    pngChunkTryFrom
        (flipBit (PngChunk.new ⟨'A', 'A', 'A', 'A'⟩ []).as_bytes 4 6) =
      some (.error (.InvalidChunkType .InvalidAsciiCharacters)) := by
  rfl

/-- Claim C8 as amended: flipping a single bit in the serialized chunk's
type or data region always makes parsing fail, but not always at the
checksum: a flip inside the data bytes fails checksum verification with
`InvalidCRC{expected: CRC of the mutated content, got: original CRC}`; a
flip inside the type bytes fails checksum verification the same way when
the flipped byte is still an ASCII letter, and fails chunk-type
validation (`InvalidChunkType InvalidAsciiCharacters`) when it is
not. -/
theorem spec_c8_amended (c : PngChunk) (p j : Nat)
    (hinv : c.length = c.data.length)
    (hlen : c.data.length < 2 ^ 32)
    (hdb : ∀ x ∈ c.data, x < 256)
    (hvalid : c.chunk_type.is_valid_chars = true)
    (hj : j < 8) (hp4 : 4 ≤ p) (hp : p < 8 + c.data.length) :
    (8 ≤ p →
      pngChunkTryFrom (flipBit c.as_bytes p j) =
        some (.error (.InvalidCRC
          (crc32 (c.chunk_type.bytes ++ flipBit c.data (p - 8) j))
          (crc32 (c.chunk_type.bytes ++ c.data))))) ∧
    (p < 8 →
      (is_ascii_letter_byte (c.chunk_type.bytes.getD (p - 4) 0 ^^^ 2 ^ j) =
          true →
        pngChunkTryFrom (flipBit c.as_bytes p j) =
          some (.error (.InvalidCRC
            (crc32 (flipBit c.chunk_type.bytes (p - 4) j ++ c.data))
            (crc32 (c.chunk_type.bytes ++ c.data))))) ∧
      (is_ascii_letter_byte (c.chunk_type.bytes.getD (p - 4) 0 ^^^ 2 ^ j) =
          false →
        pngChunkTryFrom (flipBit c.as_bytes p j) =
          some (.error (.InvalidChunkType .InvalidAsciiCharacters)))) := by
  obtain ⟨clen, ct, d⟩ := c
  dsimp only at hinv hlen hdb hvalid hp ⊢
  subst hinv
  have hbytes_len : ct.bytes.length = 4 := rfl
  have hby_lt := pngChunkType_bytes_lt ct
  have hmem_letters : ∀ y ∈ ct.bytes, is_ascii_letter_byte y = true :=
    List.all_eq_true.mp hvalid
  have hw : crc32 (ct.bytes ++ d) < 2 ^ 32 := by
    apply crc32_lt
    intro y hy
    rcases List.mem_append.mp hy with hy | hy
    · exact lt_trans (hby_lt y hy) (by norm_num)
    · exact lt_trans (hdb y hy) (by norm_num)
  have hwmod : crc32 (ct.bytes ++ d) % 2 ^ 32 = crc32 (ct.bytes ++ d) :=
    Nat.mod_eq_of_lt hw
  constructor
  · intro hp8
    obtain ⟨m, rfl⟩ : ∃ m, p = 8 + m := ⟨p - 8, by omega⟩
    have hmlt : m < d.length := by omega
    have hm8 : 8 + m - 8 = m := by omega
    rw [hm8]
    have hsplit : d = d.take m ++ d.getD m 0 :: d.drop (m + 1) := by
      conv_lhs => rw [← List.take_append_drop m d]
      rw [drop_eq_getD_cons d m hmlt]
    obtain ⟨pre, x, suf, hd_eq, hpre⟩ :
        ∃ pre x suf, d = pre ++ x :: suf ∧ pre.length = m :=
      ⟨d.take m, d.getD m 0, d.drop (m + 1), hsplit, by
        rw [List.length_take]
        omega⟩
    subst hd_eq
    have hshape :
        (PngChunk.mk (pre ++ x :: suf).length ct (pre ++ x :: suf)).as_bytes =
          ((toBe32 (pre ++ x :: suf).length ++ ct.bytes) ++ pre) ++
            x :: (suf ++ toBe32 (crc32 (ct.bytes ++ (pre ++ x :: suf)))) := by
      simp [PngChunk.as_bytes, PngChunk.crc, List.append_assoc]
    have hAlen :
        ((toBe32 (pre ++ x :: suf).length ++ ct.bytes) ++ pre).length =
          8 + m := by
      simp only [List.length_append, toBe32_length, hbytes_len, hpre]
    rw [hshape, ← hAlen, flipBit_append]
    have hre :
        ((toBe32 (pre ++ x :: suf).length ++ ct.bytes) ++ pre) ++
            (x ^^^ 2 ^ j) ::
              (suf ++ toBe32 (crc32 (ct.bytes ++ (pre ++ x :: suf)))) =
          toBe32 (pre ++ x :: suf).length ++ ct.bytes ++
            (pre ++ (x ^^^ 2 ^ j) :: suf) ++
            toBe32 (crc32 (ct.bytes ++ (pre ++ x :: suf))) := by
      simp [List.append_assoc]
    rw [hre]
    have hd' : (pre ++ (x ^^^ 2 ^ j) :: suf).length =
        (pre ++ x :: suf).length := by simp
    have hbl : ct.bytes = [ct.c0.toNat % 256, ct.c1.toNat % 256,
        ct.c2.toNat % 256, ct.c3.toNat % 256] := rfl
    rw [hbl, pngChunkTryFrom_wire _ _ _ _ _ _ _ hlen hd']
    have hall : ([ct.c0.toNat % 256, ct.c1.toNat % 256, ct.c2.toNat % 256,
        ct.c3.toNat % 256].all is_ascii_letter_byte) = true := hvalid
    simp only [pngChunkTypeTryFrom_ok _ _ _ _ (Nat.mod_lt _ (by norm_num))
      (Nat.mod_lt _ (by norm_num)) (Nat.mod_lt _ (by norm_num))
      (Nat.mod_lt _ (by norm_num)) hall]
    rw [pngChunkType_mk_bytes _ _ _ _ (Nat.mod_lt _ (by norm_num))
      (Nat.mod_lt _ (by norm_num)) (Nat.mod_lt _ (by norm_num))
      (Nat.mod_lt _ (by norm_num))]
    rw [← hbl, hwmod]
    have hne : crc32 (ct.bytes ++ (pre ++ x :: suf)) ≠
        crc32 (ct.bytes ++ (pre ++ (x ^^^ 2 ^ j) :: suf)) := by
      have h1 : ct.bytes ++ (pre ++ x :: suf) =
          (ct.bytes ++ pre) ++ x :: suf := by simp [List.append_assoc]
      have h2 : ct.bytes ++ (pre ++ (x ^^^ 2 ^ j) :: suf) =
          (ct.bytes ++ pre) ++ (x ^^^ 2 ^ j) :: suf := by
        simp [List.append_assoc]
      rw [h1, h2]
      exact Ne.symm (crc32_flip_ne (ct.bytes ++ pre) suf x j hj)
    rw [if_pos hne, ← hpre, flipBit_append]
  · intro hplt
    obtain ⟨k, rfl⟩ : ∃ k, p = 4 + k := ⟨p - 4, by omega⟩
    have hklt : k < 4 := by omega
    have hk4 : 4 + k - 4 = k := by omega
    rw [hk4]
    have hsplit : ct.bytes =
        ct.bytes.take k ++ ct.bytes.getD k 0 :: ct.bytes.drop (k + 1) := by
      conv_lhs => rw [← List.take_append_drop k ct.bytes]
      rw [drop_eq_getD_cons ct.bytes k (by rw [hbytes_len]; omega)]
    have hshape0 : ∀ tail : List Nat,
        toBe32 d.length ++ ct.bytes ++ d ++ tail =
          (toBe32 d.length ++ ct.bytes.take k) ++
            ct.bytes.getD k 0 ::
              (ct.bytes.drop (k + 1) ++ (d ++ tail)) := by
      intro tail
      conv_lhs => rw [hsplit]
      simp [List.append_assoc]
    have hab : (PngChunk.mk d.length ct d).as_bytes =
        toBe32 d.length ++ ct.bytes ++ d ++
          toBe32 (crc32 (ct.bytes ++ d)) := rfl
    rw [hab, hshape0 (toBe32 (crc32 (ct.bytes ++ d)))]
    have hAlen : (toBe32 d.length ++ ct.bytes.take k).length = 4 + k := by
      simp only [List.length_append, toBe32_length, List.length_take,
        hbytes_len]
      omega
    rw [← hAlen, flipBit_append]
    have hre : (toBe32 d.length ++ ct.bytes.take k) ++
          (ct.bytes.getD k 0 ^^^ 2 ^ j) ::
            (ct.bytes.drop (k + 1) ++
              (d ++ toBe32 (crc32 (ct.bytes ++ d)))) =
        toBe32 d.length ++ flipBit ct.bytes k j ++ d ++
          toBe32 (crc32 (ct.bytes ++ d)) := by
      simp [flipBit, List.append_assoc]
    rw [hre]
    have htblen' : (flipBit ct.bytes k j).length = 4 := by
      simp only [flipBit, List.length_append, List.length_cons,
        List.length_take, List.length_drop, hbytes_len]
      omega
    obtain ⟨u0, u1, u2, u3, hu⟩ := list_eq_four _ htblen'
    rw [hu, pngChunkTryFrom_wire _ _ _ _ _ _ _ hlen rfl]
    have humem : ∀ y ∈ flipBit ct.bytes k j,
        y ∈ ct.bytes ∨ y = ct.bytes.getD k 0 ^^^ 2 ^ j := by
      intro y hy
      simp only [flipBit] at hy
      rcases List.mem_append.mp hy with hy | hy
      · exact Or.inl (List.take_subset k ct.bytes hy)
      · rcases List.mem_cons.mp hy with hy | hy
        · exact Or.inr hy
        · exact Or.inl (List.drop_subset (k + 1) ct.bytes hy)
    have hflip_lt : ct.bytes.getD k 0 ^^^ 2 ^ j < 256 := by
      have h1 : ct.bytes.getD k 0 < 2 ^ 8 := by
        have := hby_lt _ (getD_mem_of_lt ct.bytes k (by rw [hbytes_len]; omega))
        simpa using this
      have h2 : 2 ^ j < 2 ^ 8 := Nat.pow_lt_pow_right (by norm_num) hj
      simpa using Nat.xor_lt_two_pow h1 h2
    have hu_mem_lt : ∀ y ∈ [u0, u1, u2, u3], y < 256 := by
      rw [← hu]
      intro y hy
      rcases humem y hy with hy2 | hy2
      · exact hby_lt y hy2
      · rw [hy2]; exact hflip_lt
    have hu0 : u0 < 256 := hu_mem_lt u0 (by simp)
    have hu1 : u1 < 256 := hu_mem_lt u1 (by simp)
    have hu2 : u2 < 256 := hu_mem_lt u2 (by simp)
    have hu3 : u3 < 256 := hu_mem_lt u3 (by simp)
    have hflip_mem : (ct.bytes.getD k 0 ^^^ 2 ^ j) ∈ flipBit ct.bytes k j :=
      List.mem_append.mpr (Or.inr (List.mem_cons_self _ _))
    refine ⟨?_, ?_⟩
    · intro hlet
      have hall : [u0, u1, u2, u3].all is_ascii_letter_byte = true := by
        rw [← hu]
        apply List.all_eq_true.mpr
        intro y hy
        rcases humem y hy with hy2 | hy2
        · exact hmem_letters y hy2
        · rw [hy2]; exact hlet
      simp only [pngChunkTypeTryFrom_ok u0 u1 u2 u3 hu0 hu1 hu2 hu3 hall]
      rw [pngChunkType_mk_bytes u0 u1 u2 u3 hu0 hu1 hu2 hu3, hwmod]
      have hne : crc32 (ct.bytes ++ d) ≠ crc32 ([u0, u1, u2, u3] ++ d) := by
        rw [← hu]
        have h1 : ct.bytes ++ d =
            ct.bytes.take k ++
              ct.bytes.getD k 0 :: (ct.bytes.drop (k + 1) ++ d) := by
          conv_lhs => rw [hsplit]
          simp [List.append_assoc]
        have h2 : flipBit ct.bytes k j ++ d =
            ct.bytes.take k ++
              (ct.bytes.getD k 0 ^^^ 2 ^ j) ::
                (ct.bytes.drop (k + 1) ++ d) := by
          simp [flipBit, List.append_assoc]
        rw [h1, h2]
        exact Ne.symm (crc32_flip_ne (ct.bytes.take k)
          (ct.bytes.drop (k + 1) ++ d) (ct.bytes.getD k 0) j hj)
      rw [if_pos hne]
    · intro hlet
      have hall : [u0, u1, u2, u3].all is_ascii_letter_byte = false := by
        apply Bool.eq_false_iff.mpr
        intro hAll
        have hmem3 := List.all_eq_true.mp hAll _ (hu ▸ hflip_mem)
        rw [hlet] at hmem3
        exact Bool.false_ne_true hmem3
      simp only [pngChunkTypeTryFrom_err u0 u1 u2 u3 hu0 hu1 hu2 hu3 hall]

/-! ## Witnesses -/

set_option maxRecDepth 100000 in
/-- Witness for C1: round trip of `new("RuSt", [1, 2, 3])`. -/
theorem spec_c1_roundtrip_witness :
    pngChunkTryFrom (PngChunk.new ⟨'R', 'u', 'S', 't'⟩ [1, 2, 3]).as_bytes =
      some (.ok (PngChunk.new ⟨'R', 'u', 'S', 't'⟩ [1, 2, 3])) ∧
    (PngChunk.new ⟨'R', 'u', 'S', 't'⟩ [1, 2, 3]).length =
      ([1, 2, 3] : List Nat).length ∧
    fromBe32 (((PngChunk.new ⟨'R', 'u', 'S', 't'⟩ [1, 2, 3]).as_bytes.drop
        (8 + ([1, 2, 3] : List Nat).length)).take 4) =
      (PngChunk.new ⟨'R', 'u', 'S', 't'⟩ [1, 2, 3]).crc :=
  spec_c1_roundtrip 82 117 83 116 ⟨'R', 'u', 'S', 't'⟩ [1, 2, 3]
    (by decide) (by rfl) (by decide) (by decide)

/-- Witness for C2: a 1-byte buffer fails the minimum-length check; a
12-byte buffer declaring length 30 never yields `InvalidMinimumLength`
and fails the data-length check. -/
theorem spec_c2_length_checks_witness :
    pngChunkTryFrom [0] = some (.error (.InvalidMinimumLength 1)) ∧
    pngChunkTryFrom [0, 0, 0, 30, 82, 117, 83, 116, 0, 0, 0, 0] ≠
      some (.error (.InvalidMinimumLength 12)) ∧
    pngChunkTryFrom [0, 0, 0, 30, 82, 117, 83, 116, 0, 0, 0, 0] =
      some (.error (.InvalidDataLength 30 12)) :=
  ⟨(spec_c2_length_checks [0]).1 (by decide),
   (spec_c2_length_checks [0, 0, 0, 30, 82, 117, 83, 116, 0, 0, 0, 0]).2.1
      (by decide) 12,
   ((spec_c2_length_checks [0, 0, 0, 30, 82, 117, 83, 116, 0, 0, 0, 0]).2.2
      (by decide)).mpr (by decide)⟩

set_option maxRecDepth 100000 in
/-- Witness for C3: a length-0 "RuSt" chunk whose stored checksum word 0
differs from the computed CRC 3565422908 fails with exactly that
`InvalidCRC` assignment. -/
theorem spec_c3_crc_check_witness :
    pngChunkTryFrom [0, 0, 0, 0, 82, 117, 83, 116, 0, 0, 0, 0] =
      some (.error (.InvalidCRC 3565422908 0)) :=
  (spec_c3_crc_check [0, 0, 0, 0, 82, 117, 83, 116, 0, 0, 0, 0]
      82 117 83 116 ⟨'R', 'u', 'S', 't'⟩ (by decide) (by decide)
      (by rfl) (by rfl)).1 (by decide)

/-- Witness for C5 (amended): a 2-byte string reports its byte length,
and a 4-character ASCII string delegates to the raw-bytes
constructor. -/
theorem spec_c5_amended_witness :
    pngChunkTypeFromStr ['a', 'b'] =
      some (.error (.InvalidStringLength 4 2)) ∧
    pngChunkTypeFromStr ['R', 'u', 'S', 't'] =
      some (pngChunkTypeTryFrom 82 117 83 116) :=
  ⟨(spec_c5_amended ['a', 'b']).1 (by decide),
   (spec_c5_amended ['R', 'u', 'S', 't']).2.2 'R' 'u' 'S' 't' rfl (by decide)⟩

/-- Witness for C6: serialized length of a 1-byte chunk. -/
theorem spec_c6_as_bytes_layout_witness :
    (PngChunk.new ⟨'R', 'u', 'S', 't'⟩ [7]).as_bytes.length =
      (PngChunk.new ⟨'R', 'u', 'S', 't'⟩ [7]).length + 12 :=
  (spec_c6_as_bytes_layout (PngChunk.new ⟨'R', 'u', 'S', 't'⟩ [7])
    (by rfl)).1

/-- Witness for C7: the bytes of "RuSt" are accepted and round-trip. -/
theorem spec_c7_type_from_bytes_witness :
    ∃ t, pngChunkTypeTryFrom 82 117 83 116 = .ok t ∧
      t.bytes = [82, 117, 83, 116] :=
  (spec_c7_type_from_bytes 82 117 83 116 (by decide) (by decide)
    (by decide) (by decide)).1 (by decide)

set_option maxRecDepth 100000 in
/-- Witness for C8 (amended): flipping bit 0 of the single data byte of
`new("RuSt", [7])` fails checksum verification with the recomputed CRC
349876790 as `expected` and the original CRC 1675461280 as `got`. -/
theorem spec_c8_amended_witness :
    pngChunkTryFrom
        (flipBit (PngChunk.new ⟨'R', 'u', 'S', 't'⟩ [7]).as_bytes 8 0) =
      some (.error (.InvalidCRC
        (crc32 ((PngChunk.new ⟨'R', 'u', 'S', 't'⟩ [7]).chunk_type.bytes ++
          flipBit (PngChunk.new ⟨'R', 'u', 'S', 't'⟩ [7]).data (8 - 8) 0))
        (crc32 ((PngChunk.new ⟨'R', 'u', 'S', 't'⟩ [7]).chunk_type.bytes ++
          (PngChunk.new ⟨'R', 'u', 'S', 't'⟩ [7]).data)))) :=
  (spec_c8_amended (PngChunk.new ⟨'R', 'u', 'S', 't'⟩ [7]) 8 0
    (by rfl) (by decide) (by decide) (by decide) (by decide) (by decide)
    (by decide)).1 (by decide)

end Pngme
